import Mathlib

/-!
Shallow embedding of the sales-analytics core: the canonical field mapper
(`inferCanonical`), the cleaned-view builder (`materializeCleanedView`), the
aggregation engine (`getSummary`, `getTimeseries`, `getProducts`, `getGeo`,
`getChannels`, `getAnomalies`) and the chat query router
(`routeChatQuestion`).

Modelling conventions:
* DuckDB DOUBLE arithmetic is modelled over `ℚ`; no claim depends on
  floating-point rounding.
* SQL NULL is modelled with `Option`; `SUM` over a group with no non-null
  value is `none`, otherwise `some` of the sum of the non-null values.
* Timestamps are modelled as calendar dates `Date` (year/month/day); every
  computation in the code first truncates timestamps to a day, so the
  time-of-day component is irrelevant to the properties studied here.
* A raw CSV cell (`RawVal`) is null, a string, a number, or a date; this is
  the typed value produced by `read_csv_auto`.  `TRY_CAST (x AS DOUBLE)`
  succeeds exactly on numeric cells, `TRY_CAST (x AS TIMESTAMP)` exactly on
  date cells; any other cast yields null (never an error), matching the
  safe-cast behaviour of `TRY_CAST`.
* A JavaScript string field that is `undefined` or `""` is falsy, and the
  view builder treats the two identically (both the `mapping.x ?` guards and
  the `qi` quoting helper), so `ColumnMap` entries are `Option String` with
  `none` covering both.
* The mapper's regexes are compiled to executable predicates on the list of
  characters of the lowercased, trimmed column name.  JavaScript
  `toLowerCase()`/`trim()` are modelled directly on character lists
  (`Char.toLower` mapped over the characters; whitespace stripped from both
  ends), which keeps every definition kernel-evaluable.
-/

set_option allowUnsafeReducibility true

attribute [local semireducible] Rat.mul Rat.add Rat.sub Rat.div Rat.inv Rat.neg
  Rat.normalize Rat.blt

/-- A calendar date (the result of `DATE_TRUNC('day', ts)`). -/
structure Date where
  year : Nat
  month : Nat
  day : Nat
deriving DecidableEq, Repr

/-- Lexicographic order on dates, the SQL comparison of the underlying
timestamps. -/
def Date.le (a b : Date) : Bool :=
  a.year < b.year ||
    (a.year = b.year &&
      (a.month < b.month || (a.month = b.month && a.day ≤ b.day)))

/-- `DATE_TRUNC('month', d)`: first day of the month of `d`. -/
def Date.monthTrunc (d : Date) : Date := ⟨d.year, d.month, 1⟩

/-- `DATE_TRUNC('year', d)`: first day of the year of `d`. -/
def Date.yearTrunc (d : Date) : Date := ⟨d.year, 1, 1⟩

/-- `DATE_TRUNC('month', d) - INTERVAL 1 MONTH`. -/
def Date.prevMonthStart (d : Date) : Date :=
  if d.month = 1 then ⟨d.year - 1, 12, 1⟩ else ⟨d.year, d.month - 1, 1⟩

/-- `DATE_TRUNC('year', d) - INTERVAL 1 YEAR`. -/
def Date.prevYearStart (d : Date) : Date := ⟨d.year - 1, 1, 1⟩

/-- A raw table cell as typed by CSV ingestion: SQL NULL, a text value, a
numeric value, or a timestamp-like value. -/
inductive RawVal where
  | null : RawVal
  | str : String → RawVal
  | num : ℚ → RawVal
  | date : Date → RawVal
deriving DecidableEq, Repr

/-- `TRY_CAST(v AS DOUBLE)`: numeric cells cast to their value, anything
else (including NULL) to NULL; never raises. -/
def tryCastDouble : RawVal → Option ℚ
  | RawVal.num q => some q
  | _ => none

/-- `TRY_CAST(v AS TIMESTAMP)`: date-like cells cast to their value,
anything else (including NULL) to NULL; never raises. -/
def tryCastTimestamp : RawVal → Option Date
  | RawVal.date d => some d
  | _ => none

/-- A row of the raw table `data`: an association of column names to cell
values.  Referencing a column not present yields NULL. -/
abbrev Row : Type := List (String × RawVal)

/-- Column reference `"c"` evaluated on a row. -/
def getCol (r : Row) (c : String) : RawVal :=
  match r.find? (fun p => p.1 = c) with
  | some p => p.2
  | none => RawVal.null

/-- The fixed 12-value canonical field enumeration (`CanonicalField` in
`contracts.ts`). -/
inductive CanonicalField where
  | order_id | product | timestamp | quantity | price | revenue
  | channel | city | state | zip | source_file | original_column
deriving DecidableEq, Repr

/-- `ColumnMap = Record<CanonicalField, string | undefined>`: for each
canonical field, the raw column mapped to it (if any).  `none` also covers
the empty string, which every use site treats as unmapped (JS falsiness). -/
structure ColumnMap where
  order_id : Option String := none
  product : Option String := none
  timestamp : Option String := none
  quantity : Option String := none
  price : Option String := none
  revenue : Option String := none
  channel : Option String := none
  city : Option String := none
  state : Option String := none
  zip : Option String := none
  source_file : Option String := none
  original_column : Option String := none
deriving DecidableEq, Repr

/- ### Canonical field mapper (`inferCanonical`) -/

/-- Strip whitespace from both ends of a character list (JS `trim()`). -/
def trimC (l : List Char) : List Char :=
  ((l.dropWhile Char.isWhitespace).reverse.dropWhile Char.isWhitespace).reverse

/-- Characters of the lowercased, trimmed column name
(`name.toLowerCase().trim()`). -/
def normalizeName (s : String) : List Char := trimC (s.data.map Char.toLower)

/-- `needle.isPrefixOf hay` on character lists. -/
def hasPrefixC : List Char → List Char → Bool
  | [], _ => true
  | _ :: _, [] => false
  | a :: as, b :: bs => a = b && hasPrefixC as bs

/-- Substring containment, the semantics of an unanchored literal regex
alternative such as `/order/`. -/
def containsSub (needle : List Char) : List Char → Bool
  | [] => needle.isEmpty
  | c :: rest => hasPrefixC needle (c :: rest) || containsSub needle rest

/-- Regex word character (`\w` = `[A-Za-z0-9_]`). -/
def isWordChar (c : Char) : Bool := c.isAlphanum || c = '_'

/-- No word character on the left of a candidate match position. -/
def boundaryOk : Option Char → Bool
  | none => true
  | some p => !isWordChar p

/-- No word character right after the matched word. -/
def afterOk (w h : List Char) : Bool :=
  match h.drop w.length with
  | [] => true
  | c :: _ => !isWordChar c

/-- Scan for a whole-word occurrence, remembering the previous character. -/
def containsWordAux (w : List Char) (prev : Option Char) : List Char → Bool
  | [] => false
  | c :: rest =>
    (boundaryOk prev && hasPrefixC w (c :: rest) && afterOk w (c :: rest)) ||
      containsWordAux w (some c) rest

/-- Whole-word containment, the semantics of `/\bword\b/` for a word made of
word characters. -/
def containsWord (w hay : List Char) : Bool := containsWordAux w none hay

/-- `/order|id/.test(lower) || /^id$/.test(lower)`. -/
def ruleOrderId (l : List Char) : Bool :=
  (containsSub "order".data l || containsSub "id".data l) || l = "id".data

/-- `/product|item|sku/`. -/
def ruleProduct (l : List Char) : Bool :=
  containsSub "product".data l || containsSub "item".data l || containsSub "sku".data l

/-- `/date|time/`. -/
def ruleTimestamp (l : List Char) : Bool :=
  containsSub "date".data l || containsSub "time".data l

/-- `/qty|quantity|units?/` (an occurrence of `unit` with an optional `s` is
exactly an occurrence of the substring `unit`). -/
def ruleQuantity (l : List Char) : Bool :=
  containsSub "qty".data l || containsSub "quantity".data l || containsSub "unit".data l

/-- `/price|amount|cost/`. -/
def rulePrice (l : List Char) : Bool :=
  containsSub "price".data l || containsSub "amount".data l || containsSub "cost".data l

/-- `/revenue|sales|total/`. -/
def ruleRevenue (l : List Char) : Bool :=
  containsSub "revenue".data l || containsSub "sales".data l || containsSub "total".data l

/-- `/channel|market|source/`. -/
def ruleChannel (l : List Char) : Bool :=
  containsSub "channel".data l || containsSub "market".data l || containsSub "source".data l

/-- `/city/`. -/
def ruleCity (l : List Char) : Bool := containsSub "city".data l

/-- `/\bstate\b|province/`. -/
def ruleState (l : List Char) : Bool :=
  containsWord "state".data l || containsSub "province".data l

/-- `/\bzip\b|postal/`. -/
def ruleZip (l : List Char) : Bool :=
  containsWord "zip".data l || containsSub "postal".data l

/-- One mapper rule: target field, test on the normalized name, and the
reason string pushed when it fires. -/
structure MapperRule where
  field : CanonicalField
  test : List Char → Bool
  why : String

/-- The ten `if (!canonical && pattern)` blocks of `inferCanonical`, in
source order. -/
def codeRules : List MapperRule :=
  [⟨CanonicalField.order_id, ruleOrderId, "matches order/id"⟩,
   ⟨CanonicalField.product, ruleProduct, "matches product/item/sku"⟩,
   ⟨CanonicalField.timestamp, ruleTimestamp, "matches date/time"⟩,
   ⟨CanonicalField.quantity, ruleQuantity, "matches quantity"⟩,
   ⟨CanonicalField.price, rulePrice, "matches price/amount"⟩,
   ⟨CanonicalField.revenue, ruleRevenue, "matches revenue/total"⟩,
   ⟨CanonicalField.channel, ruleChannel, "matches channel/market/source"⟩,
   ⟨CanonicalField.city, ruleCity, "matches city"⟩,
   ⟨CanonicalField.state, ruleState, "matches state/province"⟩,
   ⟨CanonicalField.zip, ruleZip, "matches zip/postal"⟩]

/-- The mutable state of `inferCanonical`'s chain: the `canonical` variable,
the `confidence` accumulator and the `reason` array. -/
def MapperState : Type := Option CanonicalField × ℚ × List String

/-- One `if (!canonical && rule.test(lower)) { canonical = field;
confidence += 0.4; reason.push(why) }` block. -/
def applyRule (l : List Char) (st : MapperState) (r : MapperRule) : MapperState :=
  if st.1.isNone && r.test l then (some r.field, st.2.1 + 2/5, st.2.2 ++ [r.why]) else st

/-- The mapper's output record (`ColumnInference`). -/
structure Inference where
  originalName : String
  canonicalName : Option CanonicalField
  confidence : ℚ
  reason : List String
deriving DecidableEq, Repr

/-- `inferCanonical(name)`: lowercase and trim the name, run the fixed chain
of guarded pattern blocks, then report confidence
`min(1, 0.5 + accumulated)` when some field was assigned and `0` otherwise. -/
def inferCanonical (name : String) : Inference :=
  let lower := normalizeName name
  let st := codeRules.foldl (applyRule lower) (none, 0, [])
  { originalName := name
    canonicalName := st.1
    confidence := if st.1.isSome then min 1 (1/2 + st.2.1) else 0
    reason := st.2.2 }

/-- The spec's §4.1 precedence list: one pattern per canonical field, in the
order order_id, product, timestamp, quantity, price, revenue, channel, city,
state, zip. -/
def mapperPrecedence : List (CanonicalField × (List Char → Bool)) :=
  [(CanonicalField.order_id, ruleOrderId),
   (CanonicalField.product, ruleProduct),
   (CanonicalField.timestamp, ruleTimestamp),
   (CanonicalField.quantity, ruleQuantity),
   (CanonicalField.price, rulePrice),
   (CanonicalField.revenue, ruleRevenue),
   (CanonicalField.channel, ruleChannel),
   (CanonicalField.city, ruleCity),
   (CanonicalField.state, ruleState),
   (CanonicalField.zip, ruleZip)]

/-- First-match-wins classification as the spec words it: the field of the
first rule in precedence order whose pattern matches the normalized name. -/
def firstMatch (l : List Char) : Option CanonicalField :=
  (mapperPrecedence.find? (fun r => r.2 l)).map (·.1)

/- ### Cleaned view builder (`materializeCleanedView`) -/

/-- One row of the `cleaned` view: pass-through text columns keep their raw
value, `ts`/`quantity`/`price`/`revenue` are the safe casts. -/
structure CleanedRow where
  order_id : RawVal
  product : RawVal
  ts : Option Date
  quantity : Option ℚ
  price : Option ℚ
  channel : RawVal
  city : RawVal
  state : RawVal
  zip : RawVal
  revenue : Option ℚ
deriving DecidableEq, Repr

/-- A pass-through column: the mapped raw column's value, or NULL when the
field is unmapped. -/
def passCol (m : Option String) (r : Row) : RawVal :=
  match m with
  | some c => getCol r c
  | none => RawVal.null

/-- `mapping.timestamp ?? mapping.date ?? mapping["original_column"]`: the
`date` key never exists on a `ColumnMap` (it is not a canonical field and no
caller sets it), so the middle alternative is always undefined and the
fallback is the column mapped for `original_column`. -/
def dateColOf (m : ColumnMap) : Option String := m.timestamp.or m.original_column

/-- The `revenue` select expression: cast of the mapped revenue column if a
revenue field is mapped, else the product of the casts of the price and
quantity columns when both are mapped (NULL-propagating `*`), else
`NULL::DOUBLE`. -/
def revenueExpr (m : ColumnMap) (r : Row) : Option ℚ :=
  match m.revenue with
  | some c => tryCastDouble (getCol r c)
  | none =>
    match m.price, m.quantity with
    | some pc, some qc =>
      (tryCastDouble (getCol r pc)).bind fun p =>
        (tryCastDouble (getCol r qc)).map fun q => p * q
    | _, _ => none

/-- The `SELECT` list of `CREATE OR REPLACE VIEW cleaned`, applied to one
row of `data`. -/
def cleanRow (m : ColumnMap) (r : Row) : CleanedRow :=
  { order_id := passCol m.order_id r
    product := passCol m.product r
    ts := (dateColOf m).bind fun c => tryCastTimestamp (getCol r c)
    quantity := m.quantity.bind fun c => tryCastDouble (getCol r c)
    price := m.price.bind fun c => tryCastDouble (getCol r c)
    channel := passCol m.channel r
    city := passCol m.city r
    state := passCol m.state r
    zip := passCol m.zip r
    revenue := revenueExpr m r }

/-- The contents of the `cleaned` view over the raw table `data`. -/
def materializeCleanedView (m : ColumnMap) (data : List Row) : List CleanedRow :=
  data.map (cleanRow m)

/-- The engine state visible to the analytics layer: the raw table and the
current definition of the `cleaned` view (none before any materialize). -/
structure DBState where
  data : List Row
  cleaned : Option (List CleanedRow)
deriving DecidableEq, Repr

/-- `CREATE OR REPLACE VIEW cleaned`: wholesale replacement of the cleaned
relation computed from the current raw table; the raw table is untouched. -/
def materializeState (m : ColumnMap) (s : DBState) : DBState :=
  { s with cleaned := some (materializeCleanedView m s.data) }

/- ### SQL aggregation helpers -/

/-- SQL `SUM` over a list of nullable values: NULL when there is no non-null
value, otherwise the sum of the non-null values. -/
def sqlSum (xs : List (Option ℚ)) : Option ℚ :=
  let vs := xs.filterMap id
  if vs.isEmpty then none else some vs.sum

/-- Deduplicate keeping the first occurrence of each element — the distinct
grouping keys of a `GROUP BY`, in order of first appearance. -/
def dedupFirst {α : Type} [DecidableEq α] : List α → List α
  | [] => []
  | a :: t => a :: (dedupFirst t).filter (fun x => x ≠ a)

/-- `AVG` of a non-empty list of rationals. -/
def meanQ (xs : List ℚ) : ℚ := xs.sum / xs.length

/-- `STDDEV_SAMP` squared: the sample variance `Σ(x - x̄)² / (n - 1)`, NULL
for fewer than two values.  The code only uses the standard deviation inside
the comparisons `sd IS NOT NULL`, `NULLIF(sd, 0)` and `|x - x̄| / sd > 2`,
all of which are expressed below through the variance (`sd = 0 ↔ var = 0`,
and for `sd > 0`, `|x - x̄| / sd > 2 ↔ (x - x̄)² > 4·var`), so the
irrational square root itself never needs to be taken. -/
def sampleVarQ (xs : List ℚ) : Option ℚ :=
  if xs.length < 2 then none
  else some ((xs.map fun x => (x - meanQ xs) ^ 2).sum / (xs.length - 1 : ℕ))

/-- `SELECT DATE_TRUNC('day', ts) AS d, SUM(revenue) FROM cleaned WHERE ts
IS NOT NULL GROUP BY 1`: one entry per distinct day (in order of first
appearance), with the day's SQL sum of revenue. -/
def dailyTotals (rows : List CleanedRow) : List (Date × Option ℚ) :=
  let dated := rows.filterMap fun r => r.ts.map fun d => (d, r.revenue)
  (dedupFirst (dated.map (·.1))).map fun d =>
    (d, sqlSum ((dated.filter fun p => p.1 = d).map (·.2)))

/-- Same per-day grouping for revenue and quantity together (the daily time
series before ordering). -/
def dailyTotalsRQ (rows : List CleanedRow) : List (Date × Option ℚ × Option ℚ) :=
  let dated := rows.filterMap fun r => r.ts.map fun d => (d, r.revenue, r.quantity)
  (dedupFirst (dated.map (·.1))).map fun d =>
    (d, sqlSum ((dated.filter fun p => p.1 = d).map (·.2.1)),
     sqlSum ((dated.filter fun p => p.1 = d).map (·.2.2)))

/-- Per-month grouping of revenue and quantity (`DATE_TRUNC('month', ts)`). -/
def monthlyTotalsRQ (rows : List CleanedRow) : List (Date × Option ℚ × Option ℚ) :=
  let dated := rows.filterMap fun r => r.ts.map fun d => (d.monthTrunc, r.revenue, r.quantity)
  (dedupFirst (dated.map (·.1))).map fun d =>
    (d, sqlSum ((dated.filter fun p => p.1 = d).map (·.2.1)),
     sqlSum ((dated.filter fun p => p.1 = d).map (·.2.2)))

/-- DuckDB `ORDER BY revenue DESC` with the default NULLS LAST. -/
def revDescLe (a b : Option ℚ) : Bool :=
  match a, b with
  | none, none => true
  | none, some _ => false
  | some _, none => true
  | some x, some y => y ≤ x

/-- DuckDB `ORDER BY revenue ASC` with the default NULLS LAST. -/
def revAscLe (a b : Option ℚ) : Bool :=
  match a, b with
  | none, none => true
  | none, some _ => false
  | some _, none => true
  | some x, some y => x ≤ y

/- ### Aggregation engine -/

/-- `SummaryResult` of `analytics.ts`; `totalRevenue`/`totalQuantity`/
`minDate`/`maxDate` use `none` for JS `undefined`, the growth fields use
`none` for JS `null`. -/
structure SummaryResult where
  totalRevenue : Option ℚ
  totalQuantity : Option ℚ
  minDate : Option Date
  maxDate : Option Date
  momGrowthPct : Option ℚ
  yoyGrowthPct : Option ℚ
  hasDate : Bool
deriving DecidableEq, Repr

/-- SQL `MIN` over the non-null timestamps. -/
def minD (xs : List Date) : Option Date :=
  xs.foldl (fun acc d =>
    match acc with
    | none => some d
    | some m => some (if Date.le d m then d else m)) none

/-- SQL `MAX` over the non-null timestamps. -/
def maxD (xs : List Date) : Option Date :=
  xs.foldl (fun acc d =>
    match acc with
    | none => some d
    | some m => some (if Date.le m d then d else m)) none

/-- `g.prev && g.prev !== 0 ? ((g.this ?? 0) - g.prev) / g.prev : null`:
JS falsiness sends both a NULL and a zero previous-period figure to null. -/
def growthPct (thisP prevP : Option ℚ) : Option ℚ :=
  match prevP with
  | none => none
  | some p => if p = 0 then none else some ((thisP.getD 0 - p) / p)

/-- `SUM(CASE WHEN d >= DATE_TRUNC('month', CURRENT_DATE) THEN rev ELSE 0
END)` over the per-day totals: every day on or after the start of the
current month (with no upper bound) contributes its revenue. -/
def codeThisMonthRev (today : Date) (rows : List CleanedRow) : Option ℚ :=
  sqlSum ((dailyTotals rows).map fun p =>
    if Date.le today.monthTrunc p.1 then p.2 else some 0)

/-- `SUM(CASE WHEN d >= month_start - 1 MONTH AND d < month_start THEN rev
ELSE 0 END)`: the previous calendar month's revenue. -/
def codePrevMonthRev (today : Date) (rows : List CleanedRow) : Option ℚ :=
  sqlSum ((dailyTotals rows).map fun p =>
    if Date.le today.prevMonthStart p.1 && !Date.le today.monthTrunc p.1 then p.2 else some 0)

/-- `SUM(CASE WHEN d >= DATE_TRUNC('year', CURRENT_DATE) THEN rev ELSE 0
END)`: every day on or after the start of the current year. -/
def codeThisYearRev (today : Date) (rows : List CleanedRow) : Option ℚ :=
  sqlSum ((dailyTotals rows).map fun p =>
    if Date.le today.yearTrunc p.1 then p.2 else some 0)

/-- `SUM(CASE WHEN d >= year_start - 1 YEAR AND d < year_start THEN rev ELSE
0 END)`: the previous calendar year's revenue. -/
def codePrevYearRev (today : Date) (rows : List CleanedRow) : Option ℚ :=
  sqlSum ((dailyTotals rows).map fun p =>
    if Date.le today.prevYearStart p.1 && !Date.le today.yearTrunc p.1 then p.2 else some 0)

/-- `getSummary`: overall totals and MIN/MAX of `ts`; `hasDate` is the
truthiness of the minimum timestamp; the growth percentages are computed
only when `hasDate`, from per-day revenue re-aggregated against calendar
boundaries anchored at `today` (the wall-clock `CURRENT_DATE`). -/
def getSummary (today : Date) (rows : List CleanedRow) : SummaryResult :=
  let tss := rows.filterMap (·.ts)
  let hasDate := (minD tss).isSome
  { totalRevenue := sqlSum (rows.map (·.revenue))
    totalQuantity := sqlSum (rows.map (·.quantity))
    minDate := minD tss
    maxDate := maxD tss
    momGrowthPct :=
      if hasDate then growthPct (codeThisMonthRev today rows) (codePrevMonthRev today rows)
      else none
    yoyGrowthPct :=
      if hasDate then growthPct (codeThisYearRev today rows) (codePrevYearRev today rows)
      else none
    hasDate := hasDate }

/-- `ORDER BY 1` on a date-keyed grouping (ascending buckets). -/
def bucketAsc {β : Type} (p q : Date × β) : Prop := Date.le p.1 q.1 = true

instance {β : Type} : DecidableRel (bucketAsc (β := β)) := fun p q => by
  unfold bucketAsc; infer_instance

/-- `getTimeseries`: the daily and monthly revenue/quantity series, each
ordered ascending by bucket. -/
def getTimeseries (rows : List CleanedRow) :
    List (Date × Option ℚ × Option ℚ) × List (Date × Option ℚ × Option ℚ) :=
  (List.insertionSort bucketAsc (dailyTotalsRQ rows),
   List.insertionSort bucketAsc (monthlyTotalsRQ rows))

/-- `SELECT product, SUM(revenue), SUM(quantity) FROM cleaned WHERE product
IS NOT NULL GROUP BY 1`, before ordering. -/
def productGroups (rows : List CleanedRow) : List (RawVal × Option ℚ × Option ℚ) :=
  let rs := rows.filter fun r => r.product ≠ RawVal.null
  (dedupFirst (rs.map (·.product))).map fun p =>
    (p, sqlSum ((rs.filter fun r => r.product = p).map (·.revenue)),
     sqlSum ((rs.filter fun r => r.product = p).map (·.quantity)))

/-- `ORDER BY revenue DESC` on a grouped row. -/
def groupRevDesc {κ : Type} (a b : κ × Option ℚ × Option ℚ) : Prop :=
  revDescLe a.2.1 b.2.1 = true

/-- `ORDER BY revenue ASC` on a grouped row. -/
def groupRevAsc {κ : Type} (a b : κ × Option ℚ × Option ℚ) : Prop :=
  revAscLe a.2.1 b.2.1 = true

instance {κ : Type} : DecidableRel (groupRevDesc (κ := κ)) := fun a b => by
  unfold groupRevDesc; infer_instance

instance {κ : Type} : DecidableRel (groupRevAsc (κ := κ)) := fun a b => by
  unfold groupRevAsc; infer_instance

/-- `getProducts(conn, limit = 10, offset = 0, order = "desc")`: product
groups ordered by revenue (descending unless `order` is `"asc"`), then
`LIMIT limit OFFSET offset`. -/
def getProducts (rows : List CleanedRow) (limit : Nat := 10) (offset : Nat := 0)
    (asc : Bool := false) : List (RawVal × Option ℚ × Option ℚ) :=
  let sorted :=
    if asc then List.insertionSort groupRevAsc (productGroups rows)
    else List.insertionSort groupRevDesc (productGroups rows)
  (sorted.drop offset).take limit

/-- `SELECT state, city, ... WHERE state IS NOT NULL OR city IS NOT NULL
GROUP BY 1,2`, before ordering. -/
def geoGroups (rows : List CleanedRow) : List ((RawVal × RawVal) × Option ℚ × Option ℚ) :=
  let rs := rows.filter fun r => r.state ≠ RawVal.null ∨ r.city ≠ RawVal.null
  (dedupFirst (rs.map fun r => (r.state, r.city))).map fun k =>
    (k, sqlSum ((rs.filter fun r => (r.state, r.city) = k).map (·.revenue)),
     sqlSum ((rs.filter fun r => (r.state, r.city) = k).map (·.quantity)))

/-- `getGeo`: state/city groups ordered by revenue descending, no limit. -/
def getGeo (rows : List CleanedRow) : List ((RawVal × RawVal) × Option ℚ × Option ℚ) :=
  List.insertionSort groupRevDesc (geoGroups rows)

/-- `SELECT channel, ... WHERE channel IS NOT NULL GROUP BY 1`, before
ordering. -/
def channelGroups (rows : List CleanedRow) : List (RawVal × Option ℚ × Option ℚ) :=
  let rs := rows.filter fun r => r.channel ≠ RawVal.null
  (dedupFirst (rs.map (·.channel))).map fun c =>
    (c, sqlSum ((rs.filter fun r => r.channel = c).map (·.revenue)),
     sqlSum ((rs.filter fun r => r.channel = c).map (·.quantity)))

/-- `getChannels`: channel groups ordered by revenue descending, no limit. -/
def getChannels (rows : List CleanedRow) : List (RawVal × Option ℚ × Option ℚ) :=
  List.insertionSort groupRevDesc (channelGroups rows)

/-- `ORDER BY ABS((revenue - avg) / sd) DESC` for a fixed mean: since the
standard deviation is a fixed positive constant across the rows, this is
exactly descending order of `(revenue - mean)²`. -/
def anomDesc (m : ℚ) (a b : Date × ℚ) : Prop := (b.2 - m) ^ 2 ≤ (a.2 - m) ^ 2

instance (m : ℚ) : DecidableRel (anomDesc m) := fun a b => by
  unfold anomDesc; infer_instance

/-- `getAnomalies`: per-day revenue totals (non-null `ts` only); sample mean
and sample standard deviation across the (non-null) daily totals; keep the
days with `|rev - mean| / sd > 2` — encoded as `(rev - mean)² > 4·var` —
and order by `|z|` descending.  The `WHERE sd IS NOT NULL` guard empties the
result when the variance is undefined (fewer than two values), and
`NULLIF(sd, 0)` empties it when the variance is zero. -/
def getAnomalies (rows : List CleanedRow) : List (Date × ℚ) :=
  let daily := dailyTotals rows
  let revs := (daily.map (·.2)).filterMap id
  match sampleVarQ revs with
  | none => []
  | some v =>
    if v = 0 then []
    else
      let m := meanQ revs
      List.insertionSort (anomDesc m)
        (daily.filterMap fun p =>
          p.2.bind fun r => if (r - m) ^ 2 > 4 * v then some (p.1, r) else none)

/-- The bundle of aggregate outputs the dashboard computes from the current
`cleaned` relation. -/
def aggregateBundle (today : Date) (rows : List CleanedRow) :=
  (getSummary today rows, getTimeseries rows, getProducts rows, getGeo rows,
   getChannels rows, getAnomalies rows)

/-- The `cleaned` relation a query sees (empty before any materialize). -/
def cleanedOf (s : DBState) : List CleanedRow := s.cleaned.getD []

/- ### Chat query router -/

/-- The seven templates of `routeChatQuestion`. -/
inductive Template where
  | top_products | channels | geo | anomalies | mom_growth | yoy_growth | summary
deriving DecidableEq, Repr

/-- `routeChatQuestion`'s classification: lowercase the question, then the
source's chain of `text.includes(...)` guards, first match returning. -/
def routeTemplate (q : String) : Template :=
  let text := q.data.map Char.toLower
  if containsSub "top".data text && containsSub "product".data text then Template.top_products
  else if containsSub "channel".data text then Template.channels
  else if containsSub "state".data text || containsSub "city".data text ||
      containsSub "geo".data text then Template.geo
  else if containsSub "anomaly".data text || containsSub "outlier".data text then
    Template.anomalies
  else if containsSub "mom".data text || containsSub "month".data text ||
      containsSub "growth".data text then Template.mom_growth
  else if containsSub "yoy".data text || containsSub "year".data text then
    Template.yoy_growth
  else Template.summary

/-- The spec's §4.4 ordered rule list: substring predicates on the
lowercased question, in precedence order. -/
def routeRules : List ((List Char → Bool) × Template) :=
  [(fun t => containsSub "top".data t && containsSub "product".data t, Template.top_products),
   (fun t => containsSub "channel".data t, Template.channels),
   (fun t => containsSub "state".data t || containsSub "city".data t ||
     containsSub "geo".data t, Template.geo),
   (fun t => containsSub "anomaly".data t || containsSub "outlier".data t, Template.anomalies),
   (fun t => containsSub "mom".data t || containsSub "month".data t ||
     containsSub "growth".data t, Template.mom_growth),
   (fun t => containsSub "yoy".data t || containsSub "year".data t, Template.yoy_growth)]

/-- First-match-wins routing as the spec words it, with the `summary`
default when no rule matches. -/
def routeSpec (q : String) : Template :=
  ((routeRules.find? (fun r => r.1 (q.data.map Char.toLower))).map (·.2)).getD
    Template.summary

/- ### Spec-side growth definitions (§4.3 wording) -/

/-- The spec's "this month" figure: revenue of the days falling in the
calendar month containing `today`. -/
def specThisMonthRev (today : Date) (rows : List CleanedRow) : Option ℚ :=
  sqlSum ((dailyTotals rows).map fun p =>
    if p.1.monthTrunc = today.monthTrunc then p.2 else some 0)

/-- The spec's month-over-month growth: calendar-month buckets around
`today`, `(this - prev) / prev`, null when the previous bucket is zero or
absent. -/
def specMomGrowthPct (today : Date) (rows : List CleanedRow) : Option ℚ :=
  growthPct (specThisMonthRev today rows) (codePrevMonthRev today rows)

instance {κ : Type} : IsTotal (κ × Option ℚ × Option ℚ) groupRevDesc where
  total := by
    rintro ⟨ka, oa, qa⟩ ⟨kb, ob, qb⟩
    unfold groupRevDesc revDescLe
    cases oa <;> cases ob <;> simp
    exact le_total _ _

instance {κ : Type} : IsTrans (κ × Option ℚ × Option ℚ) groupRevDesc where
  trans := by
    rintro ⟨ka, oa, qa⟩ ⟨kb, ob, qb⟩ ⟨kc, oc, qc⟩ h1 h2
    unfold groupRevDesc revDescLe at h1 h2 ⊢
    cases oa <;> cases ob <;> cases oc <;> simp_all
    exact le_trans h2 h1

instance {κ : Type} : IsTotal (κ × Option ℚ × Option ℚ) groupRevAsc where
  total := by
    rintro ⟨ka, oa, qa⟩ ⟨kb, ob, qb⟩
    unfold groupRevAsc revAscLe
    cases oa <;> cases ob <;> simp
    exact le_total _ _

instance {κ : Type} : IsTrans (κ × Option ℚ × Option ℚ) groupRevAsc where
  trans := by
    rintro ⟨ka, oa, qa⟩ ⟨kb, ob, qb⟩ ⟨kc, oc, qc⟩ h1 h2
    unfold groupRevAsc revAscLe at h1 h2 ⊢
    cases oa <;> cases ob <;> cases oc <;> simp_all
    exact le_trans h1 h2

instance (m : ℚ) : IsTotal (Date × ℚ) (anomDesc m) where
  total := by
    intro a b
    unfold anomDesc
    exact le_total _ _

instance (m : ℚ) : IsTrans (Date × ℚ) (anomDesc m) where
  trans := by
    intro a b c h1 h2
    unfold anomDesc at h1 h2 ⊢
    exact le_trans h2 h1

/- ### Concrete fixtures used by counterexamples and witnesses -/

/-- A cleaned row with every column null. -/
def blankRow : CleanedRow :=
  { order_id := RawVal.null, product := RawVal.null, ts := none, quantity := none,
    price := none, channel := RawVal.null, city := RawVal.null, state := RawVal.null,
    zip := RawVal.null, revenue := none }

/-- A cleaned row carrying only a date and a revenue figure. -/
def dayRevRow (d : Date) (rev : ℚ) : CleanedRow :=
  { blankRow with ts := some d, revenue := some rev }

/-- Five consecutive days realizing the daily revenue series
`[100, 100, 100, 100, 1000]` of the spec's anomaly test property. -/
def specSeriesRows : List CleanedRow :=
  [dayRevRow ⟨2024, 1, 1⟩ 100, dayRevRow ⟨2024, 1, 2⟩ 100, dayRevRow ⟨2024, 1, 3⟩ 100,
   dayRevRow ⟨2024, 1, 4⟩ 100, dayRevRow ⟨2024, 1, 5⟩ 1000]

/-- Eleven days: ten of revenue 100 and one of revenue 1000, whose outlier
clears the `|z| > 2` threshold. -/
def elevenDayRows : List CleanedRow :=
  [dayRevRow ⟨2024, 1, 1⟩ 100, dayRevRow ⟨2024, 1, 2⟩ 100, dayRevRow ⟨2024, 1, 3⟩ 100,
   dayRevRow ⟨2024, 1, 4⟩ 100, dayRevRow ⟨2024, 1, 5⟩ 100, dayRevRow ⟨2024, 1, 6⟩ 100,
   dayRevRow ⟨2024, 1, 7⟩ 100, dayRevRow ⟨2024, 1, 8⟩ 100, dayRevRow ⟨2024, 1, 9⟩ 100,
   dayRevRow ⟨2024, 1, 10⟩ 100, dayRevRow ⟨2024, 1, 11⟩ 1000]

/-- One dated row in May, June and July 2024 each, revenue 100: data whose
"this month" figure (anchored at 2024-06-15) differs between the code's
unbounded bucket and a calendar-month bucket. -/
def threeMonthRows : List CleanedRow :=
  [dayRevRow ⟨2024, 5, 10⟩ 100, dayRevRow ⟨2024, 6, 10⟩ 100, dayRevRow ⟨2024, 7, 10⟩ 100]

/-- A mapping with no canonical field mapped. -/
def emptyMap : ColumnMap := {}

/-- A mapping carrying only an explicit revenue column. -/
def revMap : ColumnMap := { revenue := some "rev" }

/-- A mapping carrying only price and quantity columns. -/
def pqMap : ColumnMap := { price := some "p", quantity := some "q" }

/-- A mapping carrying only a timestamp column. -/
def tsMap : ColumnMap := { timestamp := some "d" }

/-- A mapping carrying only an `original_column` entry (no timestamp). -/
def ocMap : ColumnMap := { original_column := some "c" }

/-- One raw row with numeric revenue, price and quantity cells and a date
cell. -/
def rawData1 : List Row :=
  [[("rev", RawVal.num 5), ("p", RawVal.num 2), ("q", RawVal.num 3),
    ("d", RawVal.date ⟨2024, 3, 4⟩)]]

/-- One raw row holding a date under column `c`. -/
def ocData : List Row := [[("c", RawVal.date ⟨2024, 1, 2⟩)]]

/-- Two days of identical revenue: a zero-variance daily series. -/
def flatRows : List CleanedRow :=
  [dayRevRow ⟨2024, 1, 1⟩ 100, dayRevRow ⟨2024, 1, 2⟩ 100]

/-- Three cleaned rows over two products. -/
def prodRows : List CleanedRow :=
  [{ blankRow with product := RawVal.str "A", revenue := some 10, quantity := some 1 },
   { blankRow with product := RawVal.str "B", revenue := some 20, quantity := some 2 },
   { blankRow with product := RawVal.str "A", revenue := some 5, quantity := some 1 }]

/- ### Helper lemmas -/

theorem mem_dedupFirst {α : Type} [DecidableEq α] (l : List α) (a : α) :
    a ∈ dedupFirst l ↔ a ∈ l := by
  induction l with
  | nil => simp [dedupFirst]
  | cons b t ih =>
    simp only [dedupFirst, List.mem_cons, List.mem_filter, decide_eq_true_eq, ih]
    by_cases h : a = b <;> simp [h]

theorem foldl_applyRule_some (l : List Char) (rs : List MapperRule) (st : MapperState)
    (h : st.1.isSome = true) : rs.foldl (applyRule l) st = st := by
  induction rs with
  | nil => rfl
  | cons r rest ih =>
    have hnone : st.1.isNone = false := by
      cases hst : st.1
      · rw [hst] at h; simp at h
      · simp [Option.isNone]
    have : applyRule l st r = st := by
      unfold applyRule
      simp [hnone]
    simp [List.foldl, this, ih]

theorem foldl_applyRule_eq_find (l : List Char) (rs : List MapperRule) :
    rs.foldl (applyRule l) ((none, 0, []) : MapperState) =
      (match rs.find? (fun r => r.test l) with
       | some r => ((some r.field, 2/5, [r.why]) : MapperState)
       | none => ((none, 0, []) : MapperState)) := by
  induction rs with
  | nil => rfl
  | cons r rest ih =>
    by_cases h : r.test l = true
    · have h1 : applyRule l ((none, 0, []) : MapperState) r =
          ((some r.field, 2/5, [r.why]) : MapperState) := by
        unfold applyRule
        simp [h]
      simp only [List.foldl, h1, List.find?, h]
      exact foldl_applyRule_some l rest _ rfl
    · have h0 : r.test l = false := by simpa using h
      have h1 : applyRule l ((none, 0, []) : MapperState) r =
          ((none, 0, []) : MapperState) := by
        unfold applyRule
        simp [h0]
      simp only [List.foldl, h1, List.find?, h0]
      exact ih

theorem find_map_rules (l : List Char) (rs : List MapperRule) :
    ((rs.map fun r => (r.field, r.test)).find? (fun r => r.2 l)).map (·.1) =
      (rs.find? (fun r => r.test l)).map (·.field) := by
  induction rs with
  | nil => rfl
  | cons r rest ih =>
    by_cases h : r.test l = true
    · rw [List.map_cons, List.find?_cons_of_pos _ (by simpa using h),
        List.find?_cons_of_pos _ (by simpa using h)]
      rfl
    · rw [List.map_cons, List.find?_cons_of_neg _ (by simpa using h),
        List.find?_cons_of_neg _ (by simpa using h)]
      exact ih

theorem mapperPrecedence_eq_codeRules :
    mapperPrecedence = codeRules.map fun r => (r.field, r.test) := rfl

/- ### Claim theorems -/

/-- C1: for every raw column name, `inferCanonical` normalizes the name to
lowercase and trims it, then tests the fixed ordered rule list (order_id,
product, timestamp, quantity, price, revenue, channel, city, state, zip) and
returns the first field whose pattern matches, first-match-wins — so a name
matching several rules is assigned only the highest-precedence field — with
confidence 0.9 on a match and 0 otherwise. -/
theorem mapper_first_match_wins (name : String) :
    (inferCanonical name).canonicalName = firstMatch (normalizeName name) ∧
    (inferCanonical name).confidence =
      (if (firstMatch (normalizeName name)).isSome then (9/10 : ℚ) else 0) := by
  have hbridge : firstMatch (normalizeName name) =
      (codeRules.find? (fun r => r.test (normalizeName name))).map (·.field) := by
    rw [firstMatch, mapperPrecedence_eq_codeRules, find_map_rules]
  have hc : (inferCanonical name).canonicalName =
      (codeRules.foldl (applyRule (normalizeName name)) ((none, 0, []) : MapperState)).1 := rfl
  have hconf : (inferCanonical name).confidence =
      (if (codeRules.foldl (applyRule (normalizeName name))
            ((none, 0, []) : MapperState)).1.isSome
       then min 1 (1/2 + (codeRules.foldl (applyRule (normalizeName name))
            ((none, 0, []) : MapperState)).2.1)
       else 0) := rfl
  rw [hc, hconf, foldl_applyRule_eq_find, hbridge]
  cases hf : codeRules.find? (fun r => r.test (normalizeName name)) with
  | none => simp
  | some r =>
    constructor
    · simp
    · simp
      norm_num

/-- C10: every column name whose lowercased, trimmed form contains the
substring "id" or "order" anywhere is assigned `order_id` with confidence
0.9 and reason "matches order/id", pre-empting every later rule. -/
theorem mapper_id_substring_order_id (name : String)
    (h : (containsSub "id".data (normalizeName name) ||
          containsSub "order".data (normalizeName name)) = true) :
    inferCanonical name =
      { originalName := name, canonicalName := some CanonicalField.order_id,
        confidence := 9/10, reason := ["matches order/id"] } := by
  have hr : ruleOrderId (normalizeName name) = true := by
    rw [ruleOrderId]
    simp only [Bool.or_eq_true] at h ⊢
    tauto
  have hfind : codeRules.find? (fun r => r.test (normalizeName name)) =
      some ⟨CanonicalField.order_id, ruleOrderId, "matches order/id"⟩ := by
    rw [codeRules, List.find?_cons_of_pos _ (by simpa using hr)]
  have hst : codeRules.foldl (applyRule (normalizeName name)) ((none, 0, []) : MapperState) =
      ((some CanonicalField.order_id, 2/5, ["matches order/id"]) : MapperState) := by
    rw [foldl_applyRule_eq_find, hfind]
  have hrec : inferCanonical name =
      { originalName := name,
        canonicalName := (codeRules.foldl (applyRule (normalizeName name))
          ((none, 0, []) : MapperState)).1,
        confidence := if (codeRules.foldl (applyRule (normalizeName name))
            ((none, 0, []) : MapperState)).1.isSome
          then min 1 (1/2 + (codeRules.foldl (applyRule (normalizeName name))
            ((none, 0, []) : MapperState)).2.1)
          else 0,
        reason := (codeRules.foldl (applyRule (normalizeName name))
          ((none, 0, []) : MapperState)).2.2 } := rfl
  rw [hrec, hst]
  simp only [Option.isSome_some, if_true]
  norm_num

/-- Witness for C10: `paid`, `holiday`, `Product_ID` and `valid_from` all
contain "id" or "order" after normalization and are all mapped to
`order_id` with confidence 0.9. -/
theorem mapper_id_substring_order_id_witness :
    ((containsSub "id".data (normalizeName "paid") ||
      containsSub "order".data (normalizeName "paid")) = true) ∧
    inferCanonical "paid" =
      { originalName := "paid", canonicalName := some CanonicalField.order_id,
        confidence := 9/10, reason := ["matches order/id"] } ∧
    inferCanonical "holiday" =
      { originalName := "holiday", canonicalName := some CanonicalField.order_id,
        confidence := 9/10, reason := ["matches order/id"] } ∧
    inferCanonical "Product_ID" =
      { originalName := "Product_ID", canonicalName := some CanonicalField.order_id,
        confidence := 9/10, reason := ["matches order/id"] } ∧
    inferCanonical "valid_from" =
      { originalName := "valid_from", canonicalName := some CanonicalField.order_id,
        confidence := 9/10, reason := ["matches order/id"] } :=
  ⟨by decide, mapper_id_substring_order_id "paid" (by decide),
   mapper_id_substring_order_id "holiday" (by decide),
   mapper_id_substring_order_id "Product_ID" (by decide),
   mapper_id_substring_order_id "valid_from" (by decide)⟩

/-- C5: the chat router classifies the lowercased question by substring
presence against the fixed ordered rule list (top+product, channel,
state/city/geo, anomaly/outlier, mom/month/growth, yoy/year, default
summary), first match short-circuiting; in particular "what are my top
products by channel" routes to `top_products` despite containing
"channel". -/
theorem route_first_match (q : String) :
    routeTemplate q = routeSpec q ∧
    routeTemplate "what are my top products by channel" = Template.top_products := by
  refine ⟨?_, by decide⟩
  unfold routeTemplate routeSpec routeRules
  by_cases h1 : (containsSub "top".data (q.data.map Char.toLower) &&
      containsSub "product".data (q.data.map Char.toLower)) = true
  · simp [h1]
  · simp only [Bool.not_eq_true] at h1
    by_cases h2 : containsSub "channel".data (q.data.map Char.toLower) = true
    · simp [h1, h2]
    · simp only [Bool.not_eq_true] at h2
      by_cases h3 : (containsSub "state".data (q.data.map Char.toLower) ||
          containsSub "city".data (q.data.map Char.toLower) ||
          containsSub "geo".data (q.data.map Char.toLower)) = true
      · simp [h1, h2, h3]
      · simp only [Bool.not_eq_true] at h3
        by_cases h4 : (containsSub "anomaly".data (q.data.map Char.toLower) ||
            containsSub "outlier".data (q.data.map Char.toLower)) = true
        · simp [h1, h2, h3, h4]
        · simp only [Bool.not_eq_true] at h4
          by_cases h5 : (containsSub "mom".data (q.data.map Char.toLower) ||
              containsSub "month".data (q.data.map Char.toLower) ||
              containsSub "growth".data (q.data.map Char.toLower)) = true
          · simp [h1, h2, h3, h4, h5]
          · simp only [Bool.not_eq_true] at h5
            by_cases h6 : (containsSub "yoy".data (q.data.map Char.toLower) ||
                containsSub "year".data (q.data.map Char.toLower)) = true
            · simp [h1, h2, h3, h4, h5, h6]
            · simp only [Bool.not_eq_true] at h6
              simp [h1, h2, h3, h4, h5, h6]

/-- C2: for every mapping and every raw row, the cleaned `revenue` cell is
the numeric cast of the mapped revenue column when a revenue field is
mapped; otherwise the product of the casts of the price and quantity columns
when both are mapped; otherwise null for every row. -/
theorem cleaned_revenue_cases (m : ColumnMap) (data : List Row) :
    (∀ c, m.revenue = some c →
      (materializeCleanedView m data).map (·.revenue) =
        data.map fun row => tryCastDouble (getCol row c)) ∧
    (∀ pc qc, m.revenue = none → m.price = some pc → m.quantity = some qc →
      (materializeCleanedView m data).map (·.revenue) =
        data.map fun row => (tryCastDouble (getCol row pc)).bind fun p =>
          (tryCastDouble (getCol row qc)).map fun q => p * q) ∧
    (m.revenue = none → m.price = none ∨ m.quantity = none →
      ∀ r ∈ materializeCleanedView m data, r.revenue = none) := by
  refine ⟨?_, ?_, ?_⟩
  · intro c hc
    simp only [materializeCleanedView, List.map_map]
    apply List.map_congr_left
    intro row _
    simp [Function.comp, cleanRow, revenueExpr, hc]
  · intro pc qc hr hp hq
    simp only [materializeCleanedView, List.map_map]
    apply List.map_congr_left
    intro row _
    simp [Function.comp, cleanRow, revenueExpr, hr, hp, hq]
  · intro hr hpq r hrmem
    simp only [materializeCleanedView] at hrmem
    obtain ⟨row, _, rfl⟩ := List.mem_map.mp hrmem
    rcases hpq with hp | hq
    · simp [cleanRow, revenueExpr, hr, hp]
    · cases hmp : m.price <;> simp [cleanRow, revenueExpr, hr, hq, hmp]

/-- Witness for C2: on a concrete table, the revenue column follows the
mapped revenue column, the price×quantity fallback, and the all-null
default, respectively, under three concrete mappings. -/
theorem cleaned_revenue_cases_witness :
    ((materializeCleanedView revMap rawData1).map (·.revenue) =
      rawData1.map fun row => tryCastDouble (getCol row "rev")) ∧
    ((materializeCleanedView pqMap rawData1).map (·.revenue) =
      rawData1.map fun row => (tryCastDouble (getCol row "p")).bind fun p =>
        (tryCastDouble (getCol row "q")).map fun q => p * q) ∧
    (∀ r ∈ materializeCleanedView emptyMap rawData1, r.revenue = none) :=
  ⟨(cleaned_revenue_cases revMap rawData1).1 "rev" rfl,
   (cleaned_revenue_cases pqMap rawData1).2.1 "p" "q" rfl rfl rfl,
   (cleaned_revenue_cases emptyMap rawData1).2.2 rfl (Or.inl rfl)⟩

/-- C3 counterexample: with no timestamp field mapped but `original_column`
mapped to a date-bearing raw column, the cleaned `ts` column is not null —
the view builder falls back to `mapping["original_column"]` for `ts`. -/
theorem cleaned_ts_fallback_counterexample :
    ocMap.timestamp = none ∧
    (materializeCleanedView ocMap ocData).map (·.ts) = [some ⟨2024, 1, 2⟩] ∧
    (materializeCleanedView ocMap ocData).map (·.ts) ≠ [none] := by decide

/-- C3 (amended): every canonical field absent from the mapping whose
column is derived from that field alone contributes a null column
(pass-through text fields yield SQL NULL, `quantity`/`price` yield null
casts); `ts` is the safe cast of the mapped timestamp column when one is
mapped, and is null for every row only when neither `timestamp` nor the
`original_column` fallback is mapped. -/
theorem cleaned_unmapped_null_columns (m : ColumnMap) (data : List Row) :
    (m.order_id = none → ∀ r ∈ materializeCleanedView m data, r.order_id = RawVal.null) ∧
    (m.product = none → ∀ r ∈ materializeCleanedView m data, r.product = RawVal.null) ∧
    (m.channel = none → ∀ r ∈ materializeCleanedView m data, r.channel = RawVal.null) ∧
    (m.city = none → ∀ r ∈ materializeCleanedView m data, r.city = RawVal.null) ∧
    (m.state = none → ∀ r ∈ materializeCleanedView m data, r.state = RawVal.null) ∧
    (m.zip = none → ∀ r ∈ materializeCleanedView m data, r.zip = RawVal.null) ∧
    (m.quantity = none → ∀ r ∈ materializeCleanedView m data, r.quantity = none) ∧
    (m.price = none → ∀ r ∈ materializeCleanedView m data, r.price = none) ∧
    (∀ c, m.timestamp = some c →
      (materializeCleanedView m data).map (·.ts) =
        data.map fun row => tryCastTimestamp (getCol row c)) ∧
    (m.timestamp = none → ∀ c, m.original_column = some c →
      (materializeCleanedView m data).map (·.ts) =
        data.map fun row => tryCastTimestamp (getCol row c)) ∧
    (m.timestamp = none → m.original_column = none →
      ∀ r ∈ materializeCleanedView m data, r.ts = none) := by
  have hmem : ∀ r ∈ materializeCleanedView m data, ∃ row, r = cleanRow m row := by
    intro r hrmem
    simp only [materializeCleanedView] at hrmem
    obtain ⟨row, _, rfl⟩ := List.mem_map.mp hrmem
    exact ⟨row, rfl⟩
  refine ⟨?_, ?_, ?_, ?_, ?_, ?_, ?_, ?_, ?_, ?_, ?_⟩
  · intro h r hr; obtain ⟨row, rfl⟩ := hmem r hr; simp [cleanRow, passCol, h]
  · intro h r hr; obtain ⟨row, rfl⟩ := hmem r hr; simp [cleanRow, passCol, h]
  · intro h r hr; obtain ⟨row, rfl⟩ := hmem r hr; simp [cleanRow, passCol, h]
  · intro h r hr; obtain ⟨row, rfl⟩ := hmem r hr; simp [cleanRow, passCol, h]
  · intro h r hr; obtain ⟨row, rfl⟩ := hmem r hr; simp [cleanRow, passCol, h]
  · intro h r hr; obtain ⟨row, rfl⟩ := hmem r hr; simp [cleanRow, passCol, h]
  · intro h r hr; obtain ⟨row, rfl⟩ := hmem r hr; simp [cleanRow, h]
  · intro h r hr; obtain ⟨row, rfl⟩ := hmem r hr; simp [cleanRow, h]
  · intro c hc
    simp only [materializeCleanedView, List.map_map]
    apply List.map_congr_left
    intro row _
    simp [Function.comp, cleanRow, dateColOf, hc, Option.or]
  · intro h1 c h2
    simp only [materializeCleanedView, List.map_map]
    apply List.map_congr_left
    intro row _
    simp [Function.comp, cleanRow, dateColOf, h1, h2, Option.or]
  · intro h1 h2 r hr
    obtain ⟨row, rfl⟩ := hmem r hr
    simp [cleanRow, dateColOf, h1, h2, Option.or]

/-- Witness for C3: under an empty mapping every derived column is null on
a concrete table; with a mapped timestamp column, `ts` is its safe cast;
with only `original_column` mapped, `ts` is the safe cast of that column. -/
theorem cleaned_unmapped_null_columns_witness :
    (∀ r ∈ materializeCleanedView emptyMap rawData1, r.order_id = RawVal.null) ∧
    (∀ r ∈ materializeCleanedView emptyMap rawData1, r.quantity = none) ∧
    ((materializeCleanedView tsMap rawData1).map (·.ts) =
      rawData1.map fun row => tryCastTimestamp (getCol row "d")) ∧
    ((materializeCleanedView ocMap ocData).map (·.ts) =
      ocData.map fun row => tryCastTimestamp (getCol row "c")) ∧
    (∀ r ∈ materializeCleanedView emptyMap rawData1, r.ts = none) :=
  ⟨(cleaned_unmapped_null_columns emptyMap rawData1).1 rfl,
   (cleaned_unmapped_null_columns emptyMap rawData1).2.2.2.2.2.2.1 rfl,
   (cleaned_unmapped_null_columns tsMap rawData1).2.2.2.2.2.2.2.2.1 "d" rfl,
   (cleaned_unmapped_null_columns ocMap ocData).2.2.2.2.2.2.2.2.2.1 rfl "c" rfl,
   (cleaned_unmapped_null_columns emptyMap rawData1).2.2.2.2.2.2.2.2.2.2 rfl rfl⟩

/-- C7: on a zero-row cleaned relation, `getSummary` is total and returns
absent totals and dates (`none`, not an error), `hasDate = false`, and null
growth percentages. -/
theorem summary_empty_relation (today : Date) :
    getSummary today [] =
      { totalRevenue := none, totalQuantity := none, minDate := none, maxDate := none,
        momGrowthPct := none, yoyGrowthPct := none, hasDate := false } := rfl

/-- C9: re-materializing the cleaned view with the same mapping over
unchanged raw data is idempotent — the engine state is unchanged, and every
aggregate computed over the view is identical. -/
theorem materialize_view_idempotent (m : ColumnMap) (s : DBState) (today : Date) :
    materializeState m (materializeState m s) = materializeState m s ∧
    aggregateBundle today (cleanedOf (materializeState m (materializeState m s))) =
      aggregateBundle today (cleanedOf (materializeState m s)) :=
  ⟨rfl, rfl⟩

/-- C8: `getProducts` groups rows by product excluding null products, sums
revenue and quantity per group, orders by revenue (descending by default,
ascending on request, NULLS LAST), applies `LIMIT`/`OFFSET` — element `i`
of the result is exactly element `offset + i` of the sorted group list,
cut off at `limit` — and defaults the limit to 10 (offset 0, descending). -/
theorem products_spec (rows : List CleanedRow) (limit offset : Nat) (asc : Bool) :
    getProducts rows = getProducts rows 10 0 false ∧
    (∀ g ∈ getProducts rows limit offset asc,
      g.1 ≠ RawVal.null ∧
      g.2.1 = sqlSum (((rows.filter fun r => r.product ≠ RawVal.null).filter
          fun r => r.product = g.1).map (·.revenue)) ∧
      g.2.2 = sqlSum (((rows.filter fun r => r.product ≠ RawVal.null).filter
          fun r => r.product = g.1).map (·.quantity))) ∧
    List.Sorted groupRevDesc (getProducts rows limit offset false) ∧
    List.Sorted groupRevAsc (getProducts rows limit offset true) ∧
    (getProducts rows limit offset asc).length ≤ limit ∧
    (∀ i : Nat, (getProducts rows limit offset false)[i]? =
      if i < limit
      then (List.insertionSort groupRevDesc (productGroups rows))[offset + i]?
      else none) ∧
    (∀ i : Nat, (getProducts rows limit offset true)[i]? =
      if i < limit
      then (List.insertionSort groupRevAsc (productGroups rows))[offset + i]?
      else none) := by
  have hsub : ∀ (a : Bool) g, g ∈ getProducts rows limit offset a → g ∈ productGroups rows := by
    intro a g hg
    unfold getProducts at hg
    have h1 : g ∈ (if a then List.insertionSort groupRevAsc (productGroups rows)
        else List.insertionSort groupRevDesc (productGroups rows)) :=
      List.drop_subset _ _ (List.take_subset _ _ hg)
    cases a with
    | true => simpa [List.mem_insertionSort] using h1
    | false => simpa [List.mem_insertionSort] using h1
  refine ⟨rfl, ?_, ?_, ?_, ?_, ?_, ?_⟩
  · intro g hg
    have hpg := hsub asc g hg
    unfold productGroups at hpg
    obtain ⟨k, hk, rfl⟩ := List.mem_map.mp hpg
    refine ⟨?_, rfl, rfl⟩
    have hk2 := (mem_dedupFirst _ _).mp hk
    obtain ⟨r, hr, hrk⟩ := List.mem_map.mp hk2
    obtain ⟨-, hrnull⟩ := List.mem_filter.mp hr
    simpa [← hrk] using of_decide_eq_true hrnull
  · have hs : List.Sorted groupRevDesc
        (List.insertionSort groupRevDesc (productGroups rows)) :=
      List.sorted_insertionSort _ _
    unfold getProducts
    simp only [if_neg (Bool.false_ne_true)]
    exact hs.sublist ((List.take_sublist _ _).trans (List.drop_sublist _ _))
  · have hs : List.Sorted groupRevAsc
        (List.insertionSort groupRevAsc (productGroups rows)) :=
      List.sorted_insertionSort _ _
    unfold getProducts
    simp only [if_pos rfl]
    exact hs.sublist ((List.take_sublist _ _).trans (List.drop_sublist _ _))
  · unfold getProducts
    exact List.length_take_le _ _
  · intro i
    unfold getProducts
    simp only [if_neg (Bool.false_ne_true)]
    by_cases h : i < limit
    · rw [if_pos h, List.getElem?_take_of_lt h, List.getElem?_drop]
    · rw [if_neg h]
      exact List.getElem?_eq_none_iff.mpr
        (le_trans (List.length_take_le _ _) (Nat.not_lt.mp h))
  · intro i
    unfold getProducts
    simp only [if_pos rfl]
    by_cases h : i < limit
    · rw [if_pos h, List.getElem?_take_of_lt h, List.getElem?_drop]
      simp
    · rw [if_neg h]
      exact List.getElem?_eq_none_iff.mpr
        (le_trans (List.length_take_le _ _) (Nat.not_lt.mp h))

/-- Witness for C8: on a concrete two-product table, the top group returned
is product "B" with its summed revenue and quantity, it is non-null, and
both the default call and the explicit call agree. -/
theorem products_spec_witness :
    ((RawVal.str "B", (some 20 : Option ℚ), (some 2 : Option ℚ)) ∈
      getProducts prodRows 10 0 false) ∧
    (RawVal.str "B" : RawVal) ≠ RawVal.null ∧
    (some 20 : Option ℚ) = sqlSum (((prodRows.filter
      fun r => r.product ≠ RawVal.null).filter
        fun r => r.product = RawVal.str "B").map (·.revenue)) ∧
    getProducts prodRows = getProducts prodRows 10 0 false ∧
    (getProducts prodRows 1 1 false)[0]? =
      (List.insertionSort groupRevDesc (productGroups prodRows))[1 + 0]? :=
  have h := (products_spec prodRows 10 0 false).2.1
    (RawVal.str "B", (some 20 : Option ℚ), (some 2 : Option ℚ)) (by decide)
  ⟨by decide, h.1, h.2.1, (products_spec prodRows 10 0 false).1,
   by simpa using (products_spec prodRows 1 1 false).2.2.2.2.2.1 0⟩

/-- C4 counterexample: on the spec's own synthetic daily revenue series
`[100, 100, 100, 100, 1000]`, the code's anomaly list is empty — with the
sample standard deviation over five points the outlier's z-score is
`720 / √162000 ≈ 1.79`, which does not exceed 2 — so the final day does not
appear (with any z-score). -/
theorem anomalies_spec_series_counterexample :
    dailyTotals specSeriesRows =
      [(⟨2024, 1, 1⟩, some 100), (⟨2024, 1, 2⟩, some 100), (⟨2024, 1, 3⟩, some 100),
       (⟨2024, 1, 4⟩, some 100), (⟨2024, 1, 5⟩, some 1000)] ∧
    getAnomalies specSeriesRows = [] := by decide

/-- C4 (amended): `getAnomalies` computes per-day revenue totals over rows
with non-null `ts`, takes the sample mean and sample variance of the
non-null daily totals, returns exactly the days whose squared deviation
exceeds four times the variance (i.e. `|z| > 2`), ordered by `|z|`
descending, and returns the empty list when the variance is undefined
(fewer than two values, in particular fewer than two distinct days) or
zero.  On the series `[100, 100, 100, 100, 1000]` the result is empty,
since the largest `|z|` is `≈ 1.79 ≤ 2`. -/
theorem anomalies_characterization (rows : List CleanedRow) :
    (sampleVarQ ((List.map (·.2) (dailyTotals rows)).filterMap id) = none →
      getAnomalies rows = []) ∧
    ((dailyTotals rows).length < 2 → getAnomalies rows = []) ∧
    (sampleVarQ ((List.map (·.2) (dailyTotals rows)).filterMap id) = some 0 →
      getAnomalies rows = []) ∧
    (∀ v, sampleVarQ ((List.map (·.2) (dailyTotals rows)).filterMap id) = some v →
      v ≠ 0 →
      (∀ p : Date × ℚ, p ∈ getAnomalies rows ↔
        (p.1, some p.2) ∈ dailyTotals rows ∧
        (p.2 - meanQ ((List.map (·.2) (dailyTotals rows)).filterMap id)) ^ 2 > 4 * v) ∧
      List.Sorted (anomDesc (meanQ ((List.map (·.2) (dailyTotals rows)).filterMap id)))
        (getAnomalies rows)) := by
  refine ⟨?_, ?_, ?_, ?_⟩
  · intro h
    unfold getAnomalies
    dsimp only
    rw [h]
  · intro h
    have hlen : ((List.map (·.2) (dailyTotals rows)).filterMap id).length < 2 :=
      lt_of_le_of_lt ((List.length_filterMap_le _ _).trans
        (le_of_eq (List.length_map _ _))) h
    have hv : sampleVarQ ((List.map (·.2) (dailyTotals rows)).filterMap id) = none := by
      unfold sampleVarQ
      rw [if_pos hlen]
    unfold getAnomalies
    dsimp only
    rw [hv]
  · intro h
    unfold getAnomalies
    dsimp only
    rw [h]
    simp
  · intro v hv hv0
    unfold getAnomalies
    dsimp only
    rw [hv]
    dsimp only
    rw [if_neg hv0]
    constructor
    · intro p
      rw [List.mem_insertionSort, List.mem_filterMap]
      constructor
      · rintro ⟨q, hq, hfq⟩
        cases hq2 : q.2 with
        | none => rw [hq2] at hfq; simp at hfq
        | some r =>
          rw [hq2] at hfq
          simp only [Option.some_bind] at hfq
          by_cases hc : (r - meanQ ((List.map (·.2) (dailyTotals rows)).filterMap id)) ^ 2 >
              4 * v
          · rw [if_pos hc] at hfq
            obtain rfl := Option.some.inj hfq
            refine ⟨?_, hc⟩
            rw [← hq2]
            exact hq
          · rw [if_neg hc] at hfq
            simp at hfq
      · rintro ⟨hmem, hgt⟩
        refine ⟨(p.1, some p.2), hmem, ?_⟩
        simp only [Option.some_bind]
        rw [if_pos hgt]
    · exact List.sorted_insertionSort _ _

/-- Witness for C4: on eleven days (ten of revenue 100, one of 1000) the
outlier day is in the anomaly list; a single-day series and a zero-variance
series both give an empty list. -/
theorem anomalies_characterization_witness :
    ((⟨2024, 1, 11⟩, (1000 : ℚ)) ∈ getAnomalies elevenDayRows) ∧
    getAnomalies [dayRevRow ⟨2024, 1, 1⟩ 100] = [] ∧
    getAnomalies flatRows = [] :=
  ⟨(((anomalies_characterization elevenDayRows).2.2.2 (8910000/121)
      (by decide) (by decide)).1 (⟨2024, 1, 11⟩, (1000 : ℚ))).mpr
      ⟨by decide, by decide⟩,
   (anomalies_characterization [dayRevRow ⟨2024, 1, 1⟩ 100]).2.1 (by decide),
   (anomalies_characterization flatRows).2.2.1 (by decide)⟩

/-- C6 counterexample: with rows dated 2024-05-10, 2024-06-10 and
2024-07-10 (revenue 100 each) evaluated on 2024-06-15, the code's
month-over-month growth is 1 — its "this month" sum has no upper bound and
absorbs the July row — while the calendar-month-bucket figure of the claim
is 0. -/
theorem summary_growth_counterexample :
    (getSummary ⟨2024, 6, 15⟩ threeMonthRows).hasDate = true ∧
    (getSummary ⟨2024, 6, 15⟩ threeMonthRows).momGrowthPct = some 1 ∧
    specMomGrowthPct ⟨2024, 6, 15⟩ threeMonthRows = some 0 ∧
    (getSummary ⟨2024, 6, 15⟩ threeMonthRows).momGrowthPct ≠
      specMomGrowthPct ⟨2024, 6, 15⟩ threeMonthRows := by decide

/-- C6 (amended): whenever the cleaned relation has a non-null `ts`,
`getSummary` computes `momGrowthPct = (thisMonth - prevMonth) / prevMonth`
from revenue summed per day and re-aggregated against boundaries anchored
at the evaluation date, where the previous-month figure is the calendar
bucket `[prev month start, month start)` but the this-month figure sums
every day on or after the current month's start (future days included);
the result is null when the previous-month figure is zero or absent — and
analogously for `yoyGrowthPct` with years. -/
theorem summary_growth_buckets (today : Date) (rows : List CleanedRow)
    (h : (getSummary today rows).hasDate = true) :
    (getSummary today rows).momGrowthPct =
      growthPct (codeThisMonthRev today rows) (codePrevMonthRev today rows) ∧
    (getSummary today rows).yoyGrowthPct =
      growthPct (codeThisYearRev today rows) (codePrevYearRev today rows) ∧
    (codePrevMonthRev today rows = none ∨ codePrevMonthRev today rows = some 0 →
      (getSummary today rows).momGrowthPct = none) ∧
    (∀ p, codePrevMonthRev today rows = some p → p ≠ 0 →
      (getSummary today rows).momGrowthPct =
        some (((codeThisMonthRev today rows).getD 0 - p) / p)) ∧
    (codePrevYearRev today rows = none ∨ codePrevYearRev today rows = some 0 →
      (getSummary today rows).yoyGrowthPct = none) ∧
    (∀ p, codePrevYearRev today rows = some p → p ≠ 0 →
      (getSummary today rows).yoyGrowthPct =
        some (((codeThisYearRev today rows).getD 0 - p) / p)) := by
  have keym : (getSummary today rows).momGrowthPct =
      (if (getSummary today rows).hasDate
       then growthPct (codeThisMonthRev today rows) (codePrevMonthRev today rows)
       else none) := rfl
  have keyy : (getSummary today rows).yoyGrowthPct =
      (if (getSummary today rows).hasDate
       then growthPct (codeThisYearRev today rows) (codePrevYearRev today rows)
       else none) := rfl
  have hm : (getSummary today rows).momGrowthPct =
      growthPct (codeThisMonthRev today rows) (codePrevMonthRev today rows) := by
    rw [keym, h]
    simp
  have hy : (getSummary today rows).yoyGrowthPct =
      growthPct (codeThisYearRev today rows) (codePrevYearRev today rows) := by
    rw [keyy, h]
    simp
  refine ⟨hm, hy, ?_, ?_, ?_, ?_⟩
  · intro hp
    rw [hm]
    rcases hp with hp | hp <;> rw [hp] <;> simp [growthPct]
  · intro p hp hp0
    rw [hm, hp]
    simp [growthPct, hp0]
  · intro hp
    rw [hy]
    rcases hp with hp | hp <;> rw [hp] <;> simp [growthPct]
  · intro p hp hp0
    rw [hy, hp]
    simp [growthPct, hp0]

/-- Witness for C6: on the three-month fixture evaluated at 2024-06-15 the
previous-month figure is 100, so the month-over-month growth is
`(thisMonth - 100) / 100`. -/
theorem summary_growth_buckets_witness :
    (getSummary ⟨2024, 6, 15⟩ threeMonthRows).momGrowthPct =
      some (((codeThisMonthRev ⟨2024, 6, 15⟩ threeMonthRows).getD 0 - 100) / 100) :=
  (summary_growth_buckets ⟨2024, 6, 15⟩ threeMonthRows (by decide)).2.2.2.1 100
    (by decide) (by decide)
